import Mathlib

/-
Shallow embedding of the contest participation system
(models/Contest.js, models/Participation.js, services/userService.js,
services/adminService.js).

Times (Date values) are modelled as integers (milliseconds).  Free-text
fields that play no role in the verified logic (contest name, description,
prize text, question text is kept since answers refer to options) are kept
only where a claim depends on them.  Mongoose documents become Lean
structures; the durable store visible to one request becomes a `Store`
record holding the contest addressed by the request (the `findById` result)
and the list of all Participation documents.
-/

namespace ContestSys

/-- Question `type` enum of the contest schema:
`single-select`, `multi-select`, `true-false`. -/
inductive QType
  | singleSelect
  | multiSelect
  | trueFalse
deriving DecidableEq

/-- One entry of a question's `options` array: option text plus the
`isCorrect` flag. -/
structure QOption where
  text : String
  isCorrect : Bool
deriving DecidableEq

/-- One embedded question of a contest: text, type, ordered option list and
point value (schema default 1, min 1). -/
structure Question where
  questionText : String
  qtype : QType
  options : List QOption
  points : Nat
deriving DecidableEq

/-- Contest `status` enum: UPCOMING / ONGOING / ENDED. -/
inductive Status
  | UPCOMING
  | ONGOING
  | ENDED
deriving DecidableEq

/-- Contest `type` enum: NORMAL / VIP. -/
inductive Tier
  | NORMAL
  | VIP
deriving DecidableEq

/-- User `role`: normal / vip / admin. -/
inductive Role
  | normal
  | vip
  | admin
deriving DecidableEq

/-- A Contest document restricted to the fields the verified operations
read or write.  `id` stands for the Mongo `_id`. -/
structure Contest where
  id : Nat
  ctype : Tier
  startTime : Int
  endTime : Int
  status : Status
  questions : List Question
  maxParticipants : Nat
  currentParticipants : Nat
  isActive : Bool
deriving DecidableEq

/-- One entry of a Participation's stored `answers` array
(questionIndex, selectedOptions, isCorrect, pointsEarned).  The schema
constrains `questionIndex` and each selected option index to be
non-negative, so they are `Nat`. -/
structure Answer where
  questionIndex : Nat
  selectedOptions : List Nat
  isCorrect : Bool
  pointsEarned : Nat
deriving DecidableEq

/-- An answer as it arrives in a submit request body after the Joi
`submitAnswers` schema has run: only `questionIndex` and
`selectedOptions` (non-negative integers), unknown fields stripped. -/
structure SubmittedAnswer where
  questionIndex : Nat
  selectedOptions : List Nat
deriving DecidableEq

/-- A Participation document.  `submittedAt` is absent (`null`) until the
participation is graded; `rank` is only populated on leaderboard reads. -/
structure Participation where
  userId : Nat
  contestId : Nat
  joinedAt : Int
  submittedAt : Option Int
  answers : List Answer
  score : Nat
  totalQuestions : Nat
  correctAnswers : Nat
  wrongAnswers : Nat
  rank : Option Nat
  isCompleted : Bool
  timeSpent : Int
deriving DecidableEq

/-- The store as one request sees it: the Contest addressed by the request
(`findById` result, `none` when the id resolves to nothing) and every
Participation document. -/
structure Store where
  contest : Option Contest
  parts : List Participation
deriving DecidableEq

/-- The authenticated caller (`req.user`): id and role. -/
structure UserCtx where
  id : Nat
  role : Role
deriving DecidableEq

/-- Indices of the options whose `isCorrect` flag is true, in increasing
index order — the `correctOptions` list built inside `calculateScore`
(`options.map((option, index) => ...).filter(isCorrect).map(index)`). -/
def correctOptionIndices (q : Question) : List Nat :=
  (q.options.enum.filter (fun p => p.2.isCorrect)).map Prod.fst

/-- Grading of one stored answer against its question, from
`participationSchema.methods.calculateScore` (models/Participation.js).

`single-select` / `true-false`: the option at `selectedOptions[0]` must
exist and have `isCorrect` (in JS a missing index yields `undefined`,
which is falsy).  `multi-select`: the source sorts `selectedOptions` and
the correct-index list with the default JS comparator and compares them
elementwise after a length check; since any sort permutes its input,
equality of the two sorted arrays (with equal lengths) holds exactly when
the two lists agree as multisets, which is what the sort-and-compare below
computes as well. -/
def gradeAnswer (q : Question) (sel : List Nat) : Bool :=
  match q.qtype with
  | QType.singleSelect =>
      match sel.head? with
      | none => false
      | some i =>
          match q.options.get? i with
          | none => false
          | some opt => opt.isCorrect
  | QType.trueFalse =>
      match sel.head? with
      | none => false
      | some i =>
          match q.options.get? i with
          | none => false
          | some opt => opt.isCorrect
  | QType.multiSelect =>
      let correct := correctOptionIndices q
      decide (sel.length = correct.length) &&
        decide (List.insertionSort (· ≤ ·) sel = List.insertionSort (· ≤ ·) correct)

/-- `answer.pointsEarned = isCorrect ? question.points : 0`. -/
def gradePoints (q : Question) (sel : List Nat) : Nat :=
  if gradeAnswer q sel then q.points else 0

/-- Result of a `calculateScore` run: the totals it returns plus the
updated `answers` array (per-answer `isCorrect`/`pointsEarned` written
back). -/
structure CalcResult where
  score : Nat
  correct : Nat
  wrong : Nat
  graded : List Answer
deriving DecidableEq

/-- The `answers.forEach` loop of `calculateScore`: an answer whose
`questionIndex` hits no question is skipped (`if (!question) return;`) and
left untouched; otherwise it is graded, its `isCorrect`/`pointsEarned`
fields are set, its points are added and exactly one of the
correct/wrong counters is bumped. -/
def calculateScoreAux (qs : List Question) : List Answer → CalcResult
  | [] => ⟨0, 0, 0, []⟩
  | a :: rest =>
      let r := calculateScoreAux qs rest
      match qs.get? a.questionIndex with
      | none => ⟨r.score, r.correct, r.wrong, a :: r.graded⟩
      | some q =>
          let ok := gradeAnswer q a.selectedOptions
          let pts := gradePoints q a.selectedOptions
          ⟨r.score + pts,
           r.correct + (if ok then 1 else 0),
           r.wrong + (if ok then 0 else 1),
           { a with isCorrect := ok, pointsEarned := pts } :: r.graded⟩

/-- `participation.calculateScore(contestQuestions)`: grades the STORED
`answers` array, writes back score / correctAnswers / wrongAnswers, sets
`isCompleted := true` and stamps `submittedAt` (`new Date()`, passed here
as `now`).  Returns the updated document together with the summary the
method returns. -/
def Participation.calculateScore (p : Participation) (qs : List Question)
    (now : Int) : Participation × CalcResult :=
  let r := calculateScoreAux qs p.answers
  ({ p with
      answers := r.graded,
      score := r.score,
      correctAnswers := r.correct,
      wrongAnswers := r.wrong,
      isCompleted := true,
      submittedAt := some now }, r)

/-- `participation.calculateTimeSpent()`: seconds between join and
submission, floored (`Math.floor((submittedAt - joinedAt) / 1000)`,
hence floor division). -/
def Participation.calculateTimeSpent (p : Participation) : Participation :=
  match p.submittedAt with
  | none => p
  | some t => { p with timeSpent := Int.fdiv (t - p.joinedAt) 1000 }

/-- The status value computed by `contestSchema.methods.updateStatus`
(models/Contest.js): UPCOMING before `startTime`, ONGOING from `startTime`
through `endTime`, ENDED after `endTime`. -/
def updateStatusValue (c : Contest) (now : Int) : Status :=
  if now < c.startTime then Status.UPCOMING
  else if c.startTime ≤ now ∧ now ≤ c.endTime then Status.ONGOING
  else Status.ENDED

/-- The distinct rejection branches of `joinContest`
(services/userService.js), in source order.  The spec groups
`NotStartedYet` / `AlreadyEnded` / `NotOngoing` under the single kind
`NotOpen`. -/
inductive JoinError
  | ContestNotFound
  | ContestNotActive
  | AccessDenied
  | AlreadyJoined
  | NotStartedYet
  | AlreadyEnded
  | NotOngoing
  | Full
deriving DecidableEq

/-- Whether a join rejection is one of the three timing/status rejections
the spec calls `NotOpen`. -/
def JoinError.isNotOpen : JoinError → Bool
  | JoinError.NotStartedYet => true
  | JoinError.AlreadyEnded => true
  | JoinError.NotOngoing => true
  | _ => false

/-- Outcome of a join request. -/
inductive JoinOutcome
  | ok (p : Participation)
  | err (e : JoinError)
deriving DecidableEq

/-- The participation document `Participation.create` builds at join time:
schema defaults everywhere except `userId`, `contestId` and
`totalQuestions` (`joinedAt` defaults to the current time). -/
def newParticipation (uid cid : Nat) (now : Int) (totalQ : Nat) : Participation :=
  { userId := uid, contestId := cid, joinedAt := now, submittedAt := none,
    answers := [], score := 0, totalQuestions := totalQ, correctAnswers := 0,
    wrongAnswers := 0, rank := none, isCompleted := false, timeSpent := 0 }

/-- `joinContest` (services/userService.js): the checks in source order —
missing contest, inactive contest, VIP access, existing participation,
`now < startTime`, `now > endTime`, stored status ≠ ONGOING, capacity —
then creation of the participation and the increment of
`currentParticipants`.  Every rejection leaves the store unchanged. -/
def joinContest (st : Store) (u : UserCtx) (now : Int) : JoinOutcome × Store :=
  match st.contest with
  | none => (JoinOutcome.err JoinError.ContestNotFound, st)
  | some c =>
      if !c.isActive then (JoinOutcome.err JoinError.ContestNotActive, st)
      else if c.ctype = Tier.VIP ∧ u.role ≠ Role.vip ∧ u.role ≠ Role.admin then
        (JoinOutcome.err JoinError.AccessDenied, st)
      else if (st.parts.find? (fun p => p.userId == u.id && p.contestId == c.id)).isSome then
        (JoinOutcome.err JoinError.AlreadyJoined, st)
      else if now < c.startTime then (JoinOutcome.err JoinError.NotStartedYet, st)
      else if c.endTime < now then (JoinOutcome.err JoinError.AlreadyEnded, st)
      else if c.status ≠ Status.ONGOING then (JoinOutcome.err JoinError.NotOngoing, st)
      else if c.maxParticipants ≤ c.currentParticipants then
        (JoinOutcome.err JoinError.Full, st)
      else
        let p := newParticipation u.id c.id now c.questions.length
        (JoinOutcome.ok p,
         { contest := some { c with currentParticipants := c.currentParticipants + 1 },
           parts := st.parts ++ [p] })

/-- A sequence of sequential join requests, each seeing the store the
previous one left behind. -/
def joinSeq (st : Store) : List (UserCtx × Int) → Store
  | [] => st
  | r :: rs => joinSeq (joinContest st r.1 r.2).2 rs

/-- Consistency of the participant counter: it equals the number of
Participation documents for the contest and never exceeds
`maxParticipants`. -/
def storeInv (st : Store) : Prop :=
  match st.contest with
  | none => True
  | some c =>
      c.currentParticipants = (st.parts.filter (fun p => p.contestId == c.id)).length ∧
      c.currentParticipants ≤ c.maxParticipants

/-- The rejection kinds of `submitContest`, in source order.  All three
per-answer validation messages ("Invalid question index", "Invalid option
index", "requires exactly one answer") are the spec's `InvalidAnswer`. -/
inductive SubmitError
  | ContestNotFound
  | NotJoined
  | AlreadyCompleted
  | ContestEnded
  | AnswerCountMismatch
  | InvalidAnswer
deriving DecidableEq

/-- Outcome of a submit request (the success payload repeats the
`calculateScore` summary). -/
inductive SubmitOutcome
  | ok (score correctA wrongA : Nat)
  | err (e : SubmitError)
deriving DecidableEq

/-- How many `res.status(400).json(...)` calls the per-answer validation
loop of `submitContest` performs for one submitted answer: one for a
`questionIndex` that hits no question (the callback then returns without
the remaining checks); otherwise one per selected option index outside the
question's option range (indices are non-negative by the Joi schema, so
only the upper bound can fail) plus one if a `single-select` or
`true-false` question does not carry exactly one selected option. -/
def answerSends (qs : List Question) (a : SubmittedAnswer) : Nat :=
  match qs.get? a.questionIndex with
  | none => 1
  | some q =>
      (a.selectedOptions.filter (fun i => decide (q.options.length ≤ i))).length
      + (if q.qtype = QType.singleSelect ∧ a.selectedOptions.length ≠ 1 then 1 else 0)
      + (if q.qtype = QType.trueFalse ∧ a.selectedOptions.length ≠ 1 then 1 else 0)

/-- `submitContest` (services/userService.js).

The early rejections (missing contest, no participation, already
completed, past `endTime`, answer-count mismatch) return before anything
is written.  The per-answer validation, however, runs inside
`answers.forEach(callback)`: the `return res.status(400).json(...)`
statements return only from the callback, never from the handler, so they
do NOT abort the submission.  Faithfully to JS/Express semantics:

- no validation send: grading runs on the stored `answers`, the
  participation is saved, the success payload is returned;
- exactly one send: that 400 response is the one the client receives, but
  the handler keeps running — grading runs and the participation IS saved
  (the later success `res.json` then throws "headers already sent", which
  the catch block swallows after the save);
- two or more sends: the second `res.status(400).json` throws inside the
  `forEach` (headers already sent), the exception aborts the handler
  before `calculateScore`, so the participation is NOT saved.

Note the submitted answers are never copied into `participation.answers`;
`calculateScore` grades the stored array (empty right after join). -/
def submitContest (st : Store) (u : UserCtx) (answers : List SubmittedAnswer)
    (now : Int) : SubmitOutcome × Store :=
  match st.contest with
  | none => (SubmitOutcome.err SubmitError.ContestNotFound, st)
  | some c =>
      match st.parts.find? (fun p => p.userId == u.id && p.contestId == c.id) with
      | none => (SubmitOutcome.err SubmitError.NotJoined, st)
      | some p =>
          if p.isCompleted then (SubmitOutcome.err SubmitError.AlreadyCompleted, st)
          else if c.endTime < now then (SubmitOutcome.err SubmitError.ContestEnded, st)
          else if answers.length ≠ c.questions.length then
            (SubmitOutcome.err SubmitError.AnswerCountMismatch, st)
          else
            let sends := (answers.map (answerSends c.questions)).sum
            if 2 ≤ sends then (SubmitOutcome.err SubmitError.InvalidAnswer, st)
            else
              let pr := p.calculateScore c.questions now
              let p3 := pr.1.calculateTimeSpent
              let st2 : Store :=
                { st with
                    parts := st.parts.map (fun q =>
                      if q.userId == u.id && q.contestId == c.id then p3 else q) }
              if sends = 1 then (SubmitOutcome.err SubmitError.InvalidAnswer, st2)
              else (SubmitOutcome.ok pr.2.score pr.2.correct pr.2.wrong, st2)

/-- Ascending MongoDB comparison on `submittedAt` values: `null` sorts
before every date in ascending order. -/
def subLe : Option Int → Option Int → Prop
  | none, _ => True
  | some _, none => False
  | some a, some b => a ≤ b

instance : DecidableRel subLe := fun a b => by
  cases a <;> cases b <;> simp only [subLe] <;> infer_instance

/-- The `.sort({ score: -1, submittedAt: 1 })` order used by both
leaderboard handlers: score descending, then submitted-at ascending. -/
def lbRel (p q : Participation) : Prop :=
  q.score < p.score ∨ (p.score = q.score ∧ subLe p.submittedAt q.submittedAt)

instance : DecidableRel lbRel := fun p q => by
  unfold lbRel; infer_instance

instance : IsTotal Participation lbRel :=
  ⟨by
    intro a b
    obtain ⟨_, _, _, oa, _, sa, _, _, _, _, _, _⟩ := a
    obtain ⟨_, _, _, ob, _, sb, _, _, _, _, _, _⟩ := b
    unfold lbRel subLe
    cases oa <;> cases ob <;> simp <;> omega⟩

instance : IsTrans Participation lbRel :=
  ⟨by
    intro a b c hab hbc
    obtain ⟨_, _, _, oa, _, sa, _, _, _, _, _, _⟩ := a
    obtain ⟨_, _, _, ob, _, sb, _, _, _, _, _, _⟩ := b
    obtain ⟨_, _, _, oc, _, sc, _, _, _, _, _, _⟩ := c
    unfold lbRel subLe at *
    cases oa <;> cases ob <;> cases oc <;> simp_all <;> omega⟩

/-- The user-facing leaderboard query of `contestLeaderboard`
(services/userService.js): completed participations of the contest,
sorted by `lbRel`, capped at the top 100. -/
def lbSorted (st : Store) (c : Contest) : List Participation :=
  (List.insertionSort lbRel
    (st.parts.filter (fun p => p.contestId == c.id && p.isCompleted))).take 100

/-- The user-facing leaderboard as responded: `rank = index + 1` written
into each entry by the `forEach` over the sorted list. -/
def contestLeaderboard (st : Store) (c : Contest) : List Participation :=
  (lbSorted st c).enum.map (fun ip => { ip.2 with rank := some (ip.1 + 1) })

/-- The administrative leaderboard query of `getLeaderboard`
(services/adminService.js): ALL participations of the contest — the query
carries no `isCompleted` filter — sorted by the same `lbRel`, no limit. -/
def adminLbSorted (st : Store) (c : Contest) : List Participation :=
  List.insertionSort lbRel (st.parts.filter (fun p => p.contestId == c.id))

/-- The administrative leaderboard as responded, ranks by position. -/
def adminGetLeaderboard (st : Store) (c : Contest) : List Participation :=
  (adminLbSorted st c).enum.map (fun ip => { ip.2 with rank := some (ip.1 + 1) })

/-- "Strictly ahead" predicate of the `userRank` countDocuments query in
`contestLeaderboard`: higher score, or equal score and strictly earlier
`submittedAt` (the `$lt` date comparison matches only actual dates, so a
`null` on either side makes the second branch fail). -/
def strictlyAhead (q u : Participation) : Bool :=
  decide (u.score < q.score) ||
    (q.score == u.score &&
      match q.submittedAt, u.submittedAt with
      | some a, some b => decide (a < b)
      | _, _ => false)

/-- The `findOne({userId, contestId, isCompleted: true})` lookup feeding
the rank-of-one-user computation. -/
def userFindCompleted (st : Store) (c : Contest) (uid : Nat) : Option Participation :=
  st.parts.find? (fun p => p.userId == uid && p.contestId == c.id && p.isCompleted)

/-- `userRank` of `contestLeaderboard`: `null` when the caller has no
completed participation, else 1 + the number of completed participations
of the contest strictly ahead of the caller's. -/
def userRank (st : Store) (c : Contest) (uid : Nat) : Option Nat :=
  match userFindCompleted st c uid with
  | none => none
  | some up =>
      some ((st.parts.filter (fun p =>
        p.contestId == c.id && p.isCompleted && strictlyAhead p up)).length + 1)

/-- Rejection kinds of the admin question handlers
(services/adminService.js).  `SaveFailed` stands for the contest pre-save
hook rejecting the document (the handler's catch answers 500 and nothing
is persisted). -/
inductive QErr
  | ContestNotFound
  | ContestStarted
  | InvalidIndex
  | BadTrueFalse
  | BadSingleSelect
  | NoCorrectOption
  | SaveFailed
deriving DecidableEq

/-- Per-question validation of the contest schema's pre-save hook
(models/Contest.js): at least one correct option; a `single-select`
question has at most one correct option; a `true-false` question has
exactly 2 options, exactly one of them correct. -/
def validQuestionHook (q : Question) : Bool :=
  let correct := (q.options.filter (fun o => o.isCorrect)).length
  decide (correct ≠ 0) &&
    (!(decide (q.qtype = QType.singleSelect)) || decide (correct ≤ 1)) &&
    (!(decide (q.qtype = QType.trueFalse)) ||
      (decide (q.options.length = 2) && decide (correct = 1)))

/-- `contest.save()` succeeds iff every embedded question passes the
pre-save hook (an empty question list passes trivially). -/
def contestSaveOk (c : Contest) : Bool :=
  c.questions.all validQuestionHook

/-- `req.body.points || 1`: a falsy (zero) point value becomes 1. -/
def pointsOrOne (pts : Nat) : Nat :=
  if pts = 0 then 1 else pts

/-- `addQuestion` (services/adminService.js): missing contest, then the
`now >= startTime` rejection, then the handler's own validations
(true-false needs 2 options, single-select exactly one correct, any type
at least one correct), then push + save. -/
def addQuestion (st : Store) (now : Int) (text : String) (qt : QType)
    (opts : List QOption) (pts : Nat) : Except QErr Question × Store :=
  match st.contest with
  | none => (Except.error QErr.ContestNotFound, st)
  | some c =>
      if c.startTime ≤ now then (Except.error QErr.ContestStarted, st)
      else if qt = QType.trueFalse ∧ opts.length ≠ 2 then
        (Except.error QErr.BadTrueFalse, st)
      else if qt = QType.singleSelect ∧ (opts.filter (fun o => o.isCorrect)).length ≠ 1 then
        (Except.error QErr.BadSingleSelect, st)
      else if (opts.filter (fun o => o.isCorrect)).length = 0 then
        (Except.error QErr.NoCorrectOption, st)
      else
        let q : Question := ⟨text, qt, opts, pointsOrOne pts⟩
        let c2 := { c with questions := c.questions ++ [q] }
        if contestSaveOk c2 then (Except.ok q, { st with contest := some c2 })
        else (Except.error QErr.SaveFailed, st)

/-- `editQuestion` (services/adminService.js): missing contest, index
bounds, the `now >= startTime` rejection, then replacement of the
question at the index + save (no handler-level type validation — only the
pre-save hook guards the replacement). -/
def editQuestion (st : Store) (now : Int) (idx : Nat) (text : String)
    (qt : QType) (opts : List QOption) (pts : Nat) : Except QErr Question × Store :=
  match st.contest with
  | none => (Except.error QErr.ContestNotFound, st)
  | some c =>
      if c.questions.length ≤ idx then (Except.error QErr.InvalidIndex, st)
      else if c.startTime ≤ now then (Except.error QErr.ContestStarted, st)
      else
        let q : Question := ⟨text, qt, opts, pointsOrOne pts⟩
        let c2 := { c with questions := c.questions.set idx q }
        if contestSaveOk c2 then (Except.ok q, { st with contest := some c2 })
        else (Except.error QErr.SaveFailed, st)

/-- `deleteQuestion` (services/adminService.js): missing contest, index
bounds, the `now >= startTime` rejection, then `splice(idx, 1)` + save. -/
def deleteQuestion (st : Store) (now : Int) (idx : Nat) : Except QErr Unit × Store :=
  match st.contest with
  | none => (Except.error QErr.ContestNotFound, st)
  | some c =>
      if c.questions.length ≤ idx then (Except.error QErr.InvalidIndex, st)
      else if c.startTime ≤ now then (Except.error QErr.ContestStarted, st)
      else
        let c2 := { c with questions := c.questions.eraseIdx idx }
        if contestSaveOk c2 then (Except.ok (), { st with contest := some c2 })
        else (Except.error QErr.SaveFailed, st)

/-! Concrete fixtures used by witnesses and counterexamples. -/

/-- A single-select question: options ["4" (correct), "5"], 1 point. -/
def qSS : Question := ⟨"2+2", QType.singleSelect, [⟨"4", true⟩, ⟨"5", false⟩], 1⟩

/-- A multi-select question with correct option set {0, 2}, 2 points. -/
def qMS : Question :=
  ⟨"evens", QType.multiSelect, [⟨"2", true⟩, ⟨"3", false⟩, ⟨"4", true⟩], 2⟩

/-- A multi-select question with correct option set {0}, 3 points. -/
def qMS1 : Question := ⟨"pick", QType.multiSelect, [⟨"a", true⟩, ⟨"b", false⟩], 3⟩

/-- An active NORMAL ongoing contest, window [0, 100], one question,
capacity 10, one current participant. -/
def cMain : Contest := ⟨1, Tier.NORMAL, 0, 100, Status.ONGOING, [qSS], 10, 1, true⟩

/-- User 7's participation in `cMain`, joined at time 10, not submitted. -/
def pJoined : Participation := newParticipation 7 1 10 1

/-- Store for the main fixture contest. -/
def stMain : Store := ⟨some cMain, [pJoined]⟩

/-- The caller owning `pJoined`. -/
def uMain : UserCtx := ⟨7, Role.normal⟩

/-- Characterization of multi-select grading: the sort-and-compare of
`calculateScore` accepts exactly the permutations of the correct index
list. -/
theorem gradeAnswer_multi_iff (q : Question) (sel : List Nat)
    (h : q.qtype = QType.multiSelect) :
    gradeAnswer q sel = true ↔ sel.Perm (correctOptionIndices q) := by
  unfold gradeAnswer
  rw [h]
  simp only [Bool.and_eq_true, decide_eq_true_eq]
  constructor
  · rintro ⟨hlen, hsort⟩
    have h1 := List.perm_insertionSort (· ≤ ·) sel
    have h2 := List.perm_insertionSort (· ≤ ·) (correctOptionIndices q)
    exact h1.symm.trans (hsort ▸ h2)
  · intro hp
    refine ⟨hp.length_eq, ?_⟩
    have hperm : (List.insertionSort (· ≤ ·) sel).Perm
        (List.insertionSort (· ≤ ·) (correctOptionIndices q)) :=
      (List.perm_insertionSort _ sel).trans
        (hp.trans (List.perm_insertionSort _ (correctOptionIndices q)).symm)
    have hs1 : (List.insertionSort (· ≤ ·) sel).Sorted (· ≤ ·) :=
      List.sorted_insertionSort _ _
    have hs2 : (List.insertionSort (· ≤ ·) (correctOptionIndices q)).Sorted (· ≤ ·) :=
      List.sorted_insertionSort _ _
    exact List.eq_of_perm_of_sorted hperm hs1 hs2

/-- C2 (amended): for every multi-select question, grading marks the
answer correct iff the selected option indices are, as a list compared
without regard to order but with multiplicity, a permutation of the
option indices whose correctness flag is true; grading is invariant under
reordering of the selection (so {0,2} and {2,0} grade identically), and
the points earned are question.points if correct, 0 otherwise. -/
theorem multiselect_grading_is_permutation (q : Question) (sel : List Nat)
    (h : q.qtype = QType.multiSelect) :
    (gradeAnswer q sel = true ↔ sel.Perm (correctOptionIndices q)) ∧
    (∀ sel2 : List Nat, sel.Perm sel2 → gradeAnswer q sel = gradeAnswer q sel2) ∧
    gradePoints q sel = if sel.Perm (correctOptionIndices q) then q.points else 0 := by
  refine ⟨gradeAnswer_multi_iff q sel h, ?_, ?_⟩
  · intro sel2 hp
    rw [Bool.eq_iff_iff, gradeAnswer_multi_iff q sel h, gradeAnswer_multi_iff q sel2 h]
    exact ⟨fun hx => hp.symm.trans hx, fun hx => hp.trans hx⟩
  · unfold gradePoints
    by_cases hp : sel.Perm (correctOptionIndices q)
    · rw [if_pos ((gradeAnswer_multi_iff q sel h).mpr hp), if_pos hp]
    · rw [if_neg (fun hg => hp ((gradeAnswer_multi_iff q sel h).mp hg)), if_neg hp]

/-- C2 counterexample: the claim's set-equality reading is false on the
code — the duplicated selection [0,0] equals the correct set {0} as a
set, yet `calculateScore` grades it incorrect (its length check compares
multiplicities). -/
theorem multiselect_set_equality_fails :
    qMS1.qtype = QType.multiSelect ∧
    gradeAnswer qMS1 [0, 0] = false ∧
    ([0, 0] : List Nat).toFinset = (correctOptionIndices qMS1).toFinset := by
  decide

/-- C2 witness: the amended statement instantiated at `qMS` and the
selection [2, 0]. -/
theorem multiselect_grading_is_permutation_witness :
    qMS.qtype = QType.multiSelect ∧
    ((gradeAnswer qMS [2, 0] = true ↔ ([2, 0] : List Nat).Perm (correctOptionIndices qMS)) ∧
     (∀ sel2 : List Nat, ([2, 0] : List Nat).Perm sel2 →
        gradeAnswer qMS [2, 0] = gradeAnswer qMS sel2) ∧
     gradePoints qMS [2, 0] =
       if ([2, 0] : List Nat).Perm (correctOptionIndices qMS) then qMS.points else 0) :=
  ⟨rfl, multiselect_grading_is_permutation qMS [2, 0] rfl⟩

/-- C4: a submit against an already-completed participation is rejected
with AlreadyCompleted and the store — hence the stored score, answers,
counts and submitted-at — is unchanged. -/
theorem second_submit_rejected (st : Store) (u : UserCtx)
    (answers : List SubmittedAnswer) (now : Int) (c : Contest) (p : Participation)
    (hc : st.contest = some c)
    (hp : st.parts.find? (fun q => q.userId == u.id && q.contestId == c.id) = some p)
    (hdone : p.isCompleted = true) :
    submitContest st u answers now = (SubmitOutcome.err SubmitError.AlreadyCompleted, st) := by
  unfold submitContest
  rw [hc]
  simp [hp, hdone]

/-- A completed copy of `pJoined`. -/
def pDone : Participation :=
  { pJoined with isCompleted := true, score := 1, submittedAt := some 20 }

/-- Store in which user 7 has already completed `cMain`. -/
def stDone : Store := ⟨some cMain, [pDone]⟩

/-- C4 witness. -/
theorem second_submit_rejected_witness :
    stDone.contest = some cMain ∧ pDone.isCompleted = true ∧
    submitContest stDone uMain [⟨0, [0]⟩] 50 =
      (SubmitOutcome.err SubmitError.AlreadyCompleted, stDone) :=
  ⟨rfl, rfl, second_submit_rejected stDone uMain [⟨0, [0]⟩] 50 cMain pDone rfl rfl rfl⟩

/-- C7: with end > start (a schema invariant), the derived status is
UPCOMING exactly before the start, ONGOING exactly on [start, end] and
ENDED exactly after the end — a partition of the timeline. -/
theorem deriveStatus_partition (c : Contest) (now : Int)
    (h : c.startTime < c.endTime) :
    (updateStatusValue c now = Status.UPCOMING ↔ now < c.startTime) ∧
    (updateStatusValue c now = Status.ONGOING ↔ c.startTime ≤ now ∧ now ≤ c.endTime) ∧
    (updateStatusValue c now = Status.ENDED ↔ c.endTime < now) := by
  unfold updateStatusValue
  refine ⟨?_, ?_, ?_⟩ <;> (split_ifs with h1 h2) <;> simp_all
  all_goals omega

/-- C7 witness: the partition at `cMain` (window [0, 100]) and time 50. -/
theorem deriveStatus_partition_witness :
    cMain.startTime < cMain.endTime ∧
    ((updateStatusValue cMain 50 = Status.UPCOMING ↔ (50 : Int) < cMain.startTime) ∧
     (updateStatusValue cMain 50 = Status.ONGOING ↔
        cMain.startTime ≤ (50 : Int) ∧ (50 : Int) ≤ cMain.endTime) ∧
     (updateStatusValue cMain 50 = Status.ENDED ↔ cMain.endTime < (50 : Int))) :=
  ⟨by decide, deriveStatus_partition cMain 50 (by decide)⟩

/-- C10: `calculateScore` is total over arbitrary stored answer lists;
an answer whose questionIndex hits no question contributes nothing — it
is copied through ungraded — and the correct and wrong tallies together
count exactly the answers whose questionIndex is in range. -/
theorem calculateScore_skips_out_of_range (qs : List Question) :
    (∀ answers : List Answer,
      (calculateScoreAux qs answers).correct + (calculateScoreAux qs answers).wrong
        = (answers.filter (fun a => decide (a.questionIndex < qs.length))).length) ∧
    (∀ (a : Answer) (answers : List Answer), qs.length ≤ a.questionIndex →
      calculateScoreAux qs (a :: answers)
        = { calculateScoreAux qs answers with
              graded := a :: (calculateScoreAux qs answers).graded }) := by
  constructor
  · intro answers
    induction answers with
    | nil => simp [calculateScoreAux]
    | cons a rest ih =>
      rw [calculateScoreAux]
      cases hq : qs.get? a.questionIndex with
      | none =>
        have hlen : qs.length ≤ a.questionIndex := List.get?_eq_none.mp hq
        simp [List.filter_cons, Nat.not_lt.mpr hlen, ih]
      | some q =>
        have hlt : a.questionIndex < qs.length := by
          rcases List.get?_eq_some.mp hq with ⟨hw, _⟩
          exact hw
        cases hok : gradeAnswer q a.selectedOptions <;>
          simp [List.filter_cons, hlt, ih, hok] <;> omega
  · intro a answers hge
    have hq : qs.get? a.questionIndex = none := List.get?_eq_none.mpr hge
    rw [calculateScoreAux, hq]

/-- C10 witness: against the one-question list [qSS], the answer list
[index 3 (out of range), index 0 correct] yields correct + wrong = 1, and
the out-of-range prefix answer is passed through ungraded. -/
theorem calculateScore_skips_out_of_range_witness :
    ((calculateScoreAux [qSS] [⟨3, [0], false, 0⟩, ⟨0, [0], false, 0⟩]).correct +
       (calculateScoreAux [qSS] [⟨3, [0], false, 0⟩, ⟨0, [0], false, 0⟩]).wrong
      = ([⟨3, [0], false, 0⟩, (⟨0, [0], false, 0⟩ : Answer)].filter
          (fun a => decide (a.questionIndex < [qSS].length))).length) ∧
    ([qSS].length ≤ 3 ∧
      calculateScoreAux [qSS] [⟨3, [0], false, 0⟩]
        = { calculateScoreAux [qSS] [] with
              graded := ⟨3, [0], false, 0⟩ :: (calculateScoreAux [qSS] []).graded }) :=
  ⟨(calculateScore_skips_out_of_range [qSS]).1 [⟨3, [0], false, 0⟩, ⟨0, [0], false, 0⟩],
   by decide,
   (calculateScore_skips_out_of_range [qSS]).2 ⟨3, [0], false, 0⟩ [] (by decide)⟩

/-- C1 (code bug): one structurally invalid answer — questionIndex 1
against the single-question contest `cMain` — makes `submitContest`
answer the InvalidAnswer 400, yet the submission is NOT aborted: the
validation loop's `return` statements only leave the `forEach` callback,
so grading still runs and the participation is persisted as completed
with `submittedAt` stamped, contradicting the claimed
no-grading/unchanged-participation behaviour. -/
theorem invalid_answer_still_persists :
    (submitContest stMain uMain [⟨1, [0]⟩] 50).1
      = SubmitOutcome.err SubmitError.InvalidAnswer ∧
    (submitContest stMain uMain [⟨1, [0]⟩] 50).2.parts.map (fun p => p.isCompleted)
      = [true] ∧
    (submitContest stMain uMain [⟨1, [0]⟩] 50).2.parts.map (fun p => p.submittedAt)
      = [some 50] := by
  decide

/-- C8: for an eligible caller on an existing, active, not-yet-joined
contest, the join is rejected with one of the NotOpen-family errors (and
the store is untouched) exactly when `now < start`, or `now > end`, or
the stored status is not ONGOING. -/
theorem join_not_open_iff (st : Store) (u : UserCtx) (now : Int) (c : Contest)
    (hc : st.contest = some c) (hact : c.isActive = true)
    (hacc : ¬(c.ctype = Tier.VIP ∧ u.role ≠ Role.vip ∧ u.role ≠ Role.admin))
    (hnj : st.parts.find? (fun p => p.userId == u.id && p.contestId == c.id) = none) :
    (now < c.startTime ∨ c.endTime < now ∨ c.status ≠ Status.ONGOING)
      ↔ ∃ e, joinContest st u now = (JoinOutcome.err e, st) ∧ e.isNotOpen = true := by
  unfold joinContest
  rw [hc]
  simp only [hact, Bool.not_true, Bool.false_eq_true, if_false, if_neg hacc, hnj,
    Option.isSome_none, Bool.false_eq_true, if_false]
  by_cases h1 : now < c.startTime
  · simp [h1, JoinError.isNotOpen]
  · by_cases h2 : c.endTime < now
    · simp [h1, h2, JoinError.isNotOpen]
    · by_cases h3 : c.status = Status.ONGOING
      · by_cases h4 : c.maxParticipants ≤ c.currentParticipants <;>
          simp [h1, h2, h3, h4, JoinError.isNotOpen]
      · simp [h1, h2, h3, JoinError.isNotOpen]

/-- C8 witness: joining `cMain` (window [0, 100]) at time 200 is a
NotOpen rejection. -/
theorem join_not_open_iff_witness :
    stMain.contest = some cMain ∧ cMain.isActive = true ∧
    (((200 : Int) < cMain.startTime ∨ cMain.endTime < (200 : Int) ∨
        cMain.status ≠ Status.ONGOING)
      ↔ ∃ e, joinContest stMain ⟨8, Role.normal⟩ 200 = (JoinOutcome.err e, stMain) ∧
          e.isNotOpen = true) :=
  ⟨rfl, rfl,
   join_not_open_iff stMain ⟨8, Role.normal⟩ 200 cMain rfl rfl (by decide) rfl⟩

/-- One join step preserves counter/participation consistency. -/
theorem joinContest_inv (st : Store) (u : UserCtx) (now : Int)
    (h : storeInv st) : storeInv (joinContest st u now).2 := by
  unfold joinContest
  split
  · exact h
  · rename_i c hc
    have h' : c.currentParticipants
        = (st.parts.filter (fun p => p.contestId == c.id)).length ∧
        c.currentParticipants ≤ c.maxParticipants := by
      have h2 := h
      simp only [storeInv, hc] at h2
      exact h2
    split_ifs with h1 h2 h3 h4 h5 h6 h7
    · exact h
    · exact h
    · exact h
    · exact h
    · exact h
    · exact h
    · exact h
    · constructor
      · simp [newParticipation, List.filter_append, h'.1]
      · show c.currentParticipants + 1 ≤ c.maxParticipants
        have := h'.2
        omega

/-- Any sequence of sequential joins preserves the consistency
invariant. -/
theorem joinSeq_inv (reqs : List (UserCtx × Int)) :
    ∀ st : Store, storeInv st → storeInv (joinSeq st reqs) := by
  induction reqs with
  | nil => intro st h; exact h
  | cons r rs ih =>
      intro st h
      exact ih (joinContest st r.1 r.2).2 (joinContest_inv st r.1 r.2 h)

/-- C3: capacity is enforced — when the validation sequence reaches the
capacity check with `currentParticipants ≥ maxParticipants` the join
fails Full and the store is untouched; a successful join appends exactly
one participation (with `totalQuestions` the contest's question count)
and increments `currentParticipants` by exactly one, changing nothing
else; and any sequence of sequential joins preserves
"counter = number of participations ≤ capacity". -/
theorem join_capacity_invariant (st : Store) (c : Contest) (u : UserCtx)
    (now : Int) (reqs : List (UserCtx × Int)) :
    (st.contest = some c → c.isActive = true →
      ¬(c.ctype = Tier.VIP ∧ u.role ≠ Role.vip ∧ u.role ≠ Role.admin) →
      st.parts.find? (fun p => p.userId == u.id && p.contestId == c.id) = none →
      c.startTime ≤ now → now ≤ c.endTime → c.status = Status.ONGOING →
      c.maxParticipants ≤ c.currentParticipants →
      joinContest st u now = (JoinOutcome.err JoinError.Full, st)) ∧
    (∀ (p : Participation) (st2 : Store),
      joinContest st u now = (JoinOutcome.ok p, st2) → st.contest = some c →
      st2.parts = st.parts ++ [p] ∧ p.totalQuestions = c.questions.length ∧
      p.contestId = c.id ∧
      st2.contest = some { c with currentParticipants := c.currentParticipants + 1 }) ∧
    (storeInv st → storeInv (joinSeq st reqs)) := by
  refine ⟨?_, ?_, joinSeq_inv reqs st⟩
  · intro hc hact hacc hnj hs he hst hfull
    unfold joinContest
    rw [hc]
    simp [hact, if_neg hacc, hnj, not_lt.mpr hs, not_lt.mpr he, hst, hfull]
  · intro p st2 h hc
    unfold joinContest at h
    split at h
    · simp at h
    · rename_i c' hc'
      rw [hc] at hc'
      injection hc' with hcc
      subst hcc
      split_ifs at h with h1 h2 h3 h4 h5 h6 h7
      · simp at h
      · simp at h
      · simp at h
      · simp at h
      · simp at h
      · simp at h
      · simp at h
      · simp only [Prod.mk.injEq, JoinOutcome.ok.injEq] at h
        obtain ⟨hp, hst⟩ := h
        subst hp
        subst hst
        exact ⟨rfl, rfl, rfl, rfl⟩

/-- The fixture contest at capacity (max 1, current 1). -/
def cFull : Contest := ⟨1, Tier.NORMAL, 0, 100, Status.ONGOING, [qSS], 1, 1, true⟩

/-- Store for the at-capacity contest; user 7 already holds the one
slot. -/
def stFull : Store := ⟨some cFull, [pJoined]⟩

/-- C3 witness: user 8 joining the at-capacity contest fails Full; the
consistency invariant survives a further join sequence. -/
theorem join_capacity_invariant_witness :
    stFull.contest = some cFull ∧
    cFull.maxParticipants ≤ cFull.currentParticipants ∧
    joinContest stFull ⟨8, Role.normal⟩ 50 = (JoinOutcome.err JoinError.Full, stFull) ∧
    (storeInv stFull → storeInv (joinSeq stFull [(⟨8, Role.normal⟩, 50)])) :=
  ⟨rfl, by decide,
   (join_capacity_invariant stFull cFull ⟨8, Role.normal⟩ 50 []).1 rfl rfl (by decide)
     rfl (by decide) (by decide) rfl (by decide),
   (join_capacity_invariant stFull cFull ⟨8, Role.normal⟩ 50
     [(⟨8, Role.normal⟩, 50)]).2.2⟩

/-- C9: once `now ≥ startTime`, every question add, edit and delete
request is rejected and the store — hence the question list — is
unchanged; contrapositively, a question mutation can succeed only while
`now < startTime`. -/
theorem question_mutation_locked_after_open (st : Store) (c : Contest)
    (now : Int) (text : String) (qt : QType) (opts : List QOption)
    (pts : Nat) (idx : Nat)
    (hc : st.contest = some c) (hstarted : c.startTime ≤ now) :
    (∃ e, addQuestion st now text qt opts pts = (Except.error e, st)) ∧
    (∃ e, editQuestion st now idx text qt opts pts = (Except.error e, st)) ∧
    (∃ e, deleteQuestion st now idx = (Except.error e, st)) := by
  refine ⟨⟨QErr.ContestStarted, ?_⟩, ?_, ?_⟩
  · unfold addQuestion
    rw [hc]
    simp [hstarted]
  · unfold editQuestion
    rw [hc]
    by_cases hidx : c.questions.length ≤ idx
    · exact ⟨QErr.InvalidIndex, by simp [hidx]⟩
    · exact ⟨QErr.ContestStarted, by simp [hidx, hstarted]⟩
  · unfold deleteQuestion
    rw [hc]
    by_cases hidx : c.questions.length ≤ idx
    · exact ⟨QErr.InvalidIndex, by simp [hidx]⟩
    · exact ⟨QErr.ContestStarted, by simp [hidx, hstarted]⟩

/-- C9 witness: `cMain` opened at time 0, so at time 50 all three
question mutations are rejected with the store unchanged. -/
theorem question_mutation_locked_after_open_witness :
    stMain.contest = some cMain ∧ cMain.startTime ≤ (50 : Int) ∧
    ((∃ e, addQuestion stMain 50 "t" QType.singleSelect [⟨"x", true⟩] 1
        = (Except.error e, stMain)) ∧
     (∃ e, editQuestion stMain 50 0 "t" QType.singleSelect [⟨"x", true⟩] 1
        = (Except.error e, stMain)) ∧
     (∃ e, deleteQuestion stMain 50 0 = (Except.error e, stMain))) :=
  ⟨rfl, by decide,
   question_mutation_locked_after_open stMain cMain 50 "t" QType.singleSelect
     [⟨"x", true⟩] 1 0 rfl (by decide)⟩

/-- Writing ranks by position leaves exactly the rank values
1, 2, …, length. -/
theorem rank_map_eq (l : List Participation) :
    ((l.enum.map (fun ip => { ip.2 with rank := some (ip.1 + 1) })).map
        (fun p => p.rank))
      = (List.range l.length).map (fun i => some (i + 1)) := by
  rw [List.map_map]
  have h1 : ((fun p : Participation => p.rank) ∘
      (fun ip : Nat × Participation => { ip.2 with rank := some (ip.1 + 1) }))
      = (fun i => some (i + 1)) ∘ Prod.fst := rfl
  rw [h1, ← List.map_map, List.enum_map_fst]

/-- C5 (amended): the user-facing leaderboard contains only completed
participations of the contest, is ordered by score descending then
submitted-at ascending, and carries 1-based contiguous ranks assigned by
output position; the administrative leaderboard applies the same
ordering rule and position ranks but does NOT restrict to completed
participations — it lists every participation of the contest. -/
theorem leaderboard_order_and_ranks (st : Store) (c : Contest) :
    (∀ p ∈ lbSorted st c, p.contestId = c.id ∧ p.isCompleted = true) ∧
    (lbSorted st c).Sorted lbRel ∧
    (contestLeaderboard st c).map (fun p => p.rank)
      = (List.range (lbSorted st c).length).map (fun i => some (i + 1)) ∧
    (adminLbSorted st c).Sorted lbRel ∧
    (adminLbSorted st c).Perm (st.parts.filter (fun p => p.contestId == c.id)) ∧
    (adminGetLeaderboard st c).map (fun p => p.rank)
      = (List.range (adminLbSorted st c).length).map (fun i => some (i + 1)) := by
  refine ⟨?_, ?_, ?_, ?_, ?_, ?_⟩
  · intro p hp
    have hp2 : p ∈ List.insertionSort lbRel
        (st.parts.filter (fun q => q.contestId == c.id && q.isCompleted)) :=
      List.mem_of_mem_take hp
    have hp3 : p ∈ st.parts.filter (fun q => q.contestId == c.id && q.isCompleted) :=
      (List.perm_insertionSort lbRel _).mem_iff.mp hp2
    have hp4 := List.of_mem_filter hp3
    simp only [Bool.and_eq_true, beq_iff_eq] at hp4
    exact hp4
  · exact (List.sorted_insertionSort lbRel _).sublist (List.take_sublist 100 _)
  · exact rank_map_eq (lbSorted st c)
  · exact List.sorted_insertionSort lbRel _
  · exact List.perm_insertionSort lbRel _
  · exact rank_map_eq (adminLbSorted st c)

/-- C5 counterexample: a leaderboard query that is not restricted to
completed participations — the administrative `getLeaderboard` on a
store whose only participation is incomplete returns that incomplete
participation, so it is false that every leaderboard query returns only
completed participations. -/
theorem admin_leaderboard_includes_incomplete :
    pJoined.isCompleted = false ∧
    (adminGetLeaderboard stMain cMain).map (fun p => p.isCompleted) = [false] := by
  decide

/-- Nobody is strictly ahead of themselves under the tie-break rule. -/
theorem strictlyAhead_irrefl (u : Participation) : strictlyAhead u u = false := by
  unfold strictlyAhead
  cases h : u.submittedAt <;> simp [h]

/-- C6: the rank-of-one-user query returns `none` when the caller has no
completed participation for the contest; otherwise (given the
(userId, contestId) uniqueness the store enforces) it returns 1 plus the
number of OTHER completed participations of the contest strictly ahead
of the caller's, where "strictly ahead" is: higher score, or equal score
with strictly earlier submitted-at. -/
theorem rank_of_user (st : Store) (c : Contest) (uid : Nat) :
    ((∀ p ∈ st.parts, p.userId = uid → p.contestId = c.id → p.isCompleted = false) →
      userRank st c uid = none) ∧
    (∀ up : Participation, userFindCompleted st c uid = some up →
      (∀ p ∈ st.parts, p.userId = uid → p.contestId = c.id → p = up) →
      userRank st c uid = some ((st.parts.filter (fun p =>
        p.contestId == c.id && p.isCompleted && !(p.userId == uid) &&
          strictlyAhead p up)).length + 1)) ∧
    (∀ q u : Participation, strictlyAhead q u = true ↔
      (u.score < q.score ∨ (q.score = u.score ∧
        ∃ a b, q.submittedAt = some a ∧ u.submittedAt = some b ∧ a < b))) := by
  refine ⟨?_, ?_, ?_⟩
  · intro h
    have hfind : userFindCompleted st c uid = none := by
      unfold userFindCompleted
      apply List.find?_eq_none.mpr
      intro p hp hpred
      simp only [Bool.and_eq_true, beq_iff_eq] at hpred
      have := h p hp hpred.1.1 hpred.1.2
      rw [this] at hpred
      exact Bool.false_ne_true hpred.2
    unfold userRank
    rw [hfind]
  · intro up hfind huniq
    have hfilter : st.parts.filter (fun p =>
          p.contestId == c.id && p.isCompleted && strictlyAhead p up)
        = st.parts.filter (fun p =>
          p.contestId == c.id && p.isCompleted && !(p.userId == uid) &&
            strictlyAhead p up) := by
      apply List.filter_congr
      intro p hp
      by_cases hu : p.userId = uid
      · by_cases hcid : p.contestId = c.id
        · have hpu : p = up := huniq p hp hu hcid
          rw [hpu, strictlyAhead_irrefl]
          simp
        · have hb : (p.contestId == c.id) = false := by simpa using hcid
          simp [hb]
      · have hb : (p.userId == uid) = false := by simpa using hu
        simp [hb]
    simp only [userRank, hfind, hfilter]
  · intro q u
    unfold strictlyAhead
    cases hq : q.submittedAt <;> cases hu : u.submittedAt <;> simp [hq, hu]

/-- Completed participation of user 1 in `cMain`: score 5, submitted at
time 30. -/
def pR1 : Participation :=
  { newParticipation 1 1 0 1 with isCompleted := true, score := 5, submittedAt := some 30 }

/-- Completed participation of user 2 in `cMain`: score 7, submitted at
time 20 — strictly ahead of `pR1`. -/
def pR2 : Participation :=
  { newParticipation 2 1 0 1 with isCompleted := true, score := 7, submittedAt := some 20 }

/-- Store holding the two completed participations. -/
def stRank : Store := ⟨some cMain, [pR1, pR2]⟩

/-- C6 witness: user 1's completed participation exists and ranks 2 (one
other completed participation is strictly ahead). -/
theorem rank_of_user_witness :
    userFindCompleted stRank cMain 1 = some pR1 ∧
    userRank stRank cMain 1 = some 2 :=
  ⟨rfl, ((rank_of_user stRank cMain 1).2.1 pR1 rfl (by decide)).trans (by decide)⟩

end ContestSys
